import Mathlib

/-! Shallow embedding of the SillyTavern-ListAllTags extension (src/index.js).

The extension registers three slash commands over the host's shared, ordered
tag collection: tag-new, tag-exists-all, tag-list-all.  The collection is
modelled as a `List Tag`; each command callback is embedded as a function
taking the collection (plus the host-supplied fresh id and clock value where
the code consumes them) and returning the displayed string, the resulting
collection, and whether the debounced persistence trigger
(`saveSettingsDebounced`) was invoked.
-/

namespace ListAllTags

/-- Tag record, from the `@typedef {object} Tag` in src/index.js and the fields
set by `newTagObj`.  `sort_order` is a number in the source (optional in the
typedef); all records handled by this development carry one, as a `Nat`. -/
structure Tag where
  id : String
  name : String
  folder_type : String
  filter_state : String
  sort_order : Nat
  color : String
  color2 : String
  create_date : Nat
  deriving DecidableEq, Repr

/-- Modelled from the host: `TAG_FOLDER_DEFAULT_TYPE` imported from the host
application's tags.js; an opaque default string whose value is irrelevant to
every claim. -/
def TAG_FOLDER_DEFAULT_TYPE : String := "NONE"

/-- Modelled from the host: `DEFAULT_FILTER_STATE` imported from the host
application's filters.js; an opaque default string. -/
def DEFAULT_FILTER_STATE : String := "UNDEFINED"

/-- Modelled from the spec: lower-casing of a single character as performed by
the JavaScript built-in `toLowerCase`, on the Basic Latin and Latin-1 ranges
(uppercase ASCII letters and the accented uppercase letters U+00C0..U+00DE
except the multiplication sign map down by 0x20); identity elsewhere. -/
def jsCharToLower (c : Char) : Char :=
  if 65 ≤ c.toNat ∧ c.toNat ≤ 90 then Char.ofNat (c.toNat + 32)
  else if 192 ≤ c.toNat ∧ c.toNat ≤ 222 ∧ c.toNat ≠ 215 then Char.ofNat (c.toNat + 32)
  else c

/-- Modelled from the spec: diacritic normalization of one character — the
spec's accent-fold rule strips diacritical marks (NFD-decompose and drop
combining marks), so each precomposed accented Latin letter maps to its base
letter; characters without a diacritic are unchanged. -/
def stripDiacritic (c : Char) : Char :=
  match c with
  | 'À' | 'Á' | 'Â' | 'Ã' | 'Ä' | 'Å' => 'A'
  | 'Ç' => 'C'
  | 'È' | 'É' | 'Ê' | 'Ë' => 'E'
  | 'Ì' | 'Í' | 'Î' | 'Ï' => 'I'
  | 'Ñ' => 'N'
  | 'Ò' | 'Ó' | 'Ô' | 'Õ' | 'Ö' => 'O'
  | 'Ù' | 'Ú' | 'Û' | 'Ü' => 'U'
  | 'Ý' => 'Y'
  | 'à' | 'á' | 'â' | 'ã' | 'ä' | 'å' => 'a'
  | 'ç' => 'c'
  | 'è' | 'é' | 'ê' | 'ë' => 'e'
  | 'ì' | 'í' | 'î' | 'ï' => 'i'
  | 'ñ' => 'n'
  | 'ò' | 'ó' | 'ô' | 'õ' | 'ö' => 'o'
  | 'ù' | 'ú' | 'û' | 'ü' => 'u'
  | 'ý' | 'ÿ' => 'y'
  | c => c

/-- Fold of one character: strip the diacritic, then lower-case. -/
def foldChar (c : Char) : Char := jsCharToLower (stripDiacritic c)

/-- Fold of a whole name: characterwise. -/
def foldName (s : String) : List Char := s.data.map foldChar

/-- Modelled from the spec: the host utility `equalsIgnoreCaseAndAccents`
imported from utils.js — two names are equal after case-folding and diacritic
normalization (so "café" matches "Cafe"). -/
def equalsIgnoreCaseAndAccents (a b : String) : Bool := foldName a == foldName b

/-- Embeds `getExisting` (src/index.js lines 32-35): first tag in the
collection whose name fold-matches the input. -/
def getExisting (tags : List Tag) (tagName : String) : Option Tag :=
  tags.find? (fun t => equalsIgnoreCaseAndAccents t.name tagName)

/-- Embeds `newTagObj` (src/index.js lines 61-73).  The host-generated uuid and
the current clock value are passed in explicitly.  `Math.max(0, ...sortOrders)
+ 1` is `foldl max 0` over the mapped sort orders, plus one. -/
def newTagObj (tags : List Tag) (freshId : String) (now : Nat) (tagName : String) : Tag :=
  { id := freshId
    name := tagName
    folder_type := TAG_FOLDER_DEFAULT_TYPE
    filter_state := DEFAULT_FILTER_STATE
    sort_order := (tags.map (fun t => t.sort_order)).foldl max 0 + 1
    color := ""
    color2 := ""
    create_date := now }

/-- Embeds `createNewTag` (src/index.js lines 43-53).  Returns the new or
existing tag, the resulting collection, and whether `saveSettingsDebounced`
was called. -/
def createNewTag (tags : List Tag) (freshId : String) (now : Nat) (tagName : String) :
    Tag × List Tag × Bool :=
  match getExisting tags tagName with
  | some existing => (existing, tags, false)
  | none =>
    let tag := newTagObj tags freshId now tagName
    (tag, tags ++ [tag], true)

/-- JavaScript truthiness of an optional string argument: `undefined` and the
empty string are falsy. -/
def truthy : Option String → Bool
  | none => false
  | some s => !(s == "")

/-- Embeds the `tag-new` callback (src/index.js lines 85-93): falsy name gives
"false"; an existing fold-match gives "false"; otherwise `createNewTag` runs
and the command reports "true". -/
def tagNew (tags : List Tag) (freshId : String) (now : Nat) (tagName : Option String) :
    String × List Tag × Bool :=
  if truthy tagName then
    match getExisting tags (tagName.getD "") with
    | some _ => ("false", tags, false)
    | none =>
      let r := createNewTag tags freshId now (tagName.getD "")
      ("true", r.2.1, r.2.2)
  else ("false", tags, false)

/-- Embeds the `tag-exists-all` callback (src/index.js lines 120-123). -/
def tagExistsAll (tags : List Tag) (tagName : Option String) :
    String × List Tag × Bool :=
  if truthy tagName then
    (if (getExisting tags (tagName.getD "")).isSome then "true" else "false", tags, false)
  else ("false", tags, false)

/-- Characterwise lower-casing of a string, as the JavaScript `toLowerCase`. -/
def jsToLower (s : String) : String := String.mk (s.data.map jsCharToLower)

/-- Helper for substring containment: does the second list start with the
first one? -/
def leadsWith : List Char → List Char → Bool
  | [], _ => true
  | _ :: _, [] => false
  | a :: as, b :: bs => a == b && leadsWith as bs

/-- Does the second list contain the first as a contiguous run?  Matches the
JavaScript `String.prototype.includes` semantics (the empty pattern is
contained in everything). -/
def containsSeq (pat : List Char) : List Char → Bool
  | [] => leadsWith pat []
  | c :: cs => leadsWith pat (c :: cs) || containsSeq pat cs

/-- Embeds `s.includes(pat)` on strings. -/
def jsIncludes (s pat : String) : Bool := containsSeq pat.data s.data

/-- UTF-16 code units of one character (a surrogate pair above U+FFFF). -/
def utf16Units (c : Char) : List Nat :=
  if c.toNat < 65536 then [c.toNat]
  else [55296 + (c.toNat - 65536) / 1024, 56320 + (c.toNat - 65536) % 1024]

/-- UTF-16 code-unit sequence of a string. -/
def utf16 (s : String) : List Nat := (s.data.map utf16Units).flatten

/-- Lexicographic order on code-unit sequences. -/
def lexLeNat : List Nat → List Nat → Bool
  | [], _ => true
  | _ :: _, [] => false
  | a :: as, b :: bs => if a < b then true else if b < a then false else lexLeNat as bs

/-- String order used by the JavaScript default array sort comparator:
lexicographic over UTF-16 code units. -/
def jsStrLe (a b : String) : Bool := lexLeNat (utf16 a) (utf16 b)

/-- Insert a string into a sorted list, before the first entry it compares
less-or-equal to. -/
def sortInsert (a : String) : List String → List String
  | [] => [a]
  | b :: bs => if jsStrLe a b then a :: b :: bs else b :: sortInsert a bs

/-- Embeds the JavaScript default `Array.prototype.sort` on an array of
strings: a sort ascending under UTF-16 code-unit comparison.  Since that
comparison is antisymmetric (equivalent strings are equal), the sorted
permutation is unique and any correct sort is observationally the built-in
one. -/
def jsSort : List String → List String
  | [] => []
  | a :: as => sortInsert a (jsSort as)

/-- Embeds `.join(', ')`. -/
def joinComma (l : List String) : String := String.intercalate ", " l

/-- Embeds the `tag-list-all` callback (src/index.js lines 151-168): a truthy
search pattern selects the filter/map/sort/join path, otherwise all names are
joined in collection order. -/
def tagListAll (tags : List Tag) (search : Option String) :
    String × List Tag × Bool :=
  if truthy search then
    let s := search.getD ""
    let filteredTags :=
      joinComma (jsSort ((tags.filter
        (fun t => jsIncludes (jsToLower t.name) (jsToLower s))).map (fun t => t.name)))
    (filteredTags, tags, false)
  else
    (joinComma (tags.map (fun t => t.name)), tags, false)

/-- Does the string start with a lowercase ASCII letter? -/
def startsWithLower (s : String) : Bool :=
  match s.data with
  | [] => false
  | c :: _ => decide (97 ≤ c.toNat ∧ c.toNat ≤ 122)

/-- Does the string start with an uppercase ASCII letter? -/
def startsWithUpper (s : String) : Bool :=
  match s.data with
  | [] => false
  | c :: _ => decide (65 ≤ c.toNat ∧ c.toNat ≤ 90)

/-- Fixture record: a tag whose id and name are the given string. -/
def demoTag (n : String) (so : Nat) : Tag :=
  { id := n
    name := n
    folder_type := TAG_FOLDER_DEFAULT_TYPE
    filter_state := DEFAULT_FILTER_STATE
    sort_order := so
    color := ""
    color2 := ""
    create_date := 0 }

/-- Fixture collection from the spec's listing example. -/
def demoOSD : List Tag := [demoTag "OC" 1, demoTag "Scenario" 2, demoTag "Documentary" 3]

/-- Fixture collection for the case-ordering example. -/
def demoAB : List Tag := [demoTag "apple" 1, demoTag "Banana" 2]

/-- Fixture record named in capitals. -/
def tagALPHA : Tag := demoTag "ALPHA" 1

/-- Fixture record with an accented name. -/
def tagCafe : Tag := demoTag "Café" 1

/-! Helper lemmas. -/

theorem equalsIgnoreCaseAndAccents_refl (n : String) :
    equalsIgnoreCaseAndAccents n n = true := by
  simp [equalsIgnoreCaseAndAccents]

theorem getExisting_congr (tags : List Tag) (n1 n2 : String)
    (h : equalsIgnoreCaseAndAccents n1 n2 = true) :
    getExisting tags n1 = getExisting tags n2 := by
  have h' : foldName n1 = foldName n2 := by
    simpa [equalsIgnoreCaseAndAccents] using h
  simp [getExisting, equalsIgnoreCaseAndAccents, h']

theorem getExisting_append_one (tags : List Tag) (t : Tag) (n : String) :
    getExisting (tags ++ [t]) n =
      (getExisting tags n).or
        (if equalsIgnoreCaseAndAccents t.name n then some t else none) := by
  simp [getExisting, List.find?_append]

theorem foldl_max_init_le (l : List Nat) (a : Nat) : a ≤ l.foldl max a := by
  induction l generalizing a with
  | nil => exact Nat.le_refl a
  | cons x xs ih =>
    exact Nat.le_trans (Nat.le_max_left a x) (ih (max a x))

theorem le_foldl_max_of_mem {x : Nat} {l : List Nat} (h : x ∈ l) (a : Nat) :
    x ≤ l.foldl max a := by
  induction l generalizing a with
  | nil => cases h
  | cons y ys ih =>
    rcases List.mem_cons.mp h with rfl | hmem
    · exact Nat.le_trans (Nat.le_max_right a x) (foldl_max_init_le ys (max a x))
    · exact ih hmem (max a y)

theorem lexLeNat_total (a b : List Nat) :
    lexLeNat a b = true ∨ lexLeNat b a = true := by
  induction a generalizing b with
  | nil => left; rfl
  | cons x xs ih =>
    cases b with
    | nil => right; rfl
    | cons y ys =>
      rcases Nat.lt_trichotomy x y with hlt | heq | hgt
      · left; simp [lexLeNat, hlt]
      · subst heq
        rcases ih ys with h | h
        · left; simp [lexLeNat, h]
        · right; simp [lexLeNat, h]
      · right; simp [lexLeNat, hgt]

theorem lexLeNat_trans (a b c : List Nat) (h1 : lexLeNat a b = true)
    (h2 : lexLeNat b c = true) : lexLeNat a c = true := by
  induction a generalizing b c with
  | nil => rfl
  | cons x xs ih =>
    cases b with
    | nil => simp [lexLeNat] at h1
    | cons y ys =>
      cases c with
      | nil => simp [lexLeNat] at h2
      | cons z zs =>
        rcases Nat.lt_trichotomy x y with hxy | hxy | hxy
        · rcases Nat.lt_trichotomy y z with hyz | hyz | hyz
          · simp [lexLeNat, Nat.lt_trans hxy hyz]
          · subst hyz; simp [lexLeNat, hxy]
          · simp [lexLeNat, Nat.lt_asymm hyz, hyz] at h2
        · subst hxy
          rcases Nat.lt_trichotomy x z with hyz | hyz | hyz
          · simp [lexLeNat, hyz]
          · subst hyz
            simp only [lexLeNat, Nat.lt_irrefl, if_neg, ite_false] at h1 h2 ⊢
            exact ih ys zs h1 h2
          · simp [lexLeNat, Nat.lt_asymm hyz, hyz] at h2
        · simp [lexLeNat, Nat.lt_asymm hxy, hxy] at h1

theorem jsStrLe_total (a b : String) : jsStrLe a b = true ∨ jsStrLe b a = true :=
  lexLeNat_total (utf16 a) (utf16 b)

theorem jsStrLe_trans (a b c : String) (h1 : jsStrLe a b = true)
    (h2 : jsStrLe b c = true) : jsStrLe a c = true :=
  lexLeNat_trans (utf16 a) (utf16 b) (utf16 c) h1 h2

theorem sortInsert_perm (a : String) (l : List String) :
    (sortInsert a l).Perm (a :: l) := by
  induction l with
  | nil => exact List.Perm.refl [a]
  | cons b bs ih =>
    by_cases h : jsStrLe a b
    · simp [sortInsert, h]
    · simp only [sortInsert, h, Bool.false_eq_true, if_false]
      exact (ih.cons b).trans (List.Perm.swap a b bs)

theorem jsSort_perm (l : List String) : (jsSort l).Perm l := by
  induction l with
  | nil => exact List.Perm.refl []
  | cons a as ih =>
    exact (sortInsert_perm a (jsSort as)).trans (ih.cons a)

theorem pairwise_sortInsert (a : String) (l : List String)
    (hl : l.Pairwise (fun x y => jsStrLe x y = true)) :
    (sortInsert a l).Pairwise (fun x y => jsStrLe x y = true) := by
  induction l with
  | nil => simp [sortInsert]
  | cons b bs ih =>
    rcases List.pairwise_cons.mp hl with ⟨hb, hbs⟩
    by_cases h : jsStrLe a b
    · simp only [sortInsert, h, if_true]
      refine List.pairwise_cons.mpr ⟨?_, hl⟩
      intro y hy
      rcases List.mem_cons.mp hy with rfl | hy
      · exact h
      · exact jsStrLe_trans a b y h (hb y hy)
    · simp only [sortInsert, h, Bool.false_eq_true, if_false]
      refine List.pairwise_cons.mpr ⟨?_, ih hbs⟩
      intro y hy
      rcases List.mem_cons.mp ((sortInsert_perm a bs).mem_iff.mp hy) with heq | hy
      · rw [heq]
        rcases jsStrLe_total a b with hab | hba
        · exact absurd hab h
        · exact hba
      · exact hb y hy

theorem pairwise_jsSort (l : List String) :
    (jsSort l).Pairwise (fun x y => jsStrLe x y = true) := by
  induction l with
  | nil => simp [jsSort]
  | cons a as ih => exact pairwise_sortInsert a (jsSort as) ih

theorem jsStrLe_lower_upper (a b : String) (ha : startsWithLower a = true)
    (hb : startsWithUpper b = true) : jsStrLe a b = false := by
  unfold startsWithLower at ha
  unfold startsWithUpper at hb
  cases hda : a.data with
  | nil => rw [hda] at ha; exact absurd ha (by simp)
  | cons c cs =>
    cases hdb : b.data with
    | nil => rw [hdb] at hb; exact absurd hb (by simp)
    | cons d ds =>
      rw [hda] at ha
      rw [hdb] at hb
      have hc : 97 ≤ c.toNat ∧ c.toNat ≤ 122 := of_decide_eq_true ha
      have hd : 65 ≤ d.toNat ∧ d.toNat ≤ 90 := of_decide_eq_true hb
      have huc : utf16Units c = [c.toNat] := by
        unfold utf16Units
        rw [if_pos (by omega)]
      have hud : utf16Units d = [d.toNat] := by
        unfold utf16Units
        rw [if_pos (by omega)]
      unfold jsStrLe utf16
      rw [hda, hdb]
      simp only [List.map_cons, List.flatten_cons, huc, hud, List.cons_append,
        List.nil_append]
      unfold lexLeNat
      rw [if_neg (by omega), if_pos (by omega)]

/-! Claim theorems. -/

/-- C8: the tag-list-all callback is read-only: for every collection state and
every search argument it returns the collection unchanged and never calls the
persistence trigger. -/
theorem tagListAll_read_only (tags : List Tag) (search : Option String) :
    (tagListAll tags search).2.1 = tags ∧ (tagListAll tags search).2.2 = false := by
  cases h : truthy search <;> simp [tagListAll, h]

/-- C9: an empty search string supplied to tag-list-all is treated the same as
no search argument: the callback returns all tag names joined in insertion
order, unsorted, leaving the collection untouched. -/
theorem tagListAll_empty_search (tags : List Tag) :
    tagListAll tags (some "") = tagListAll tags none ∧
    tagListAll tags (some "") = (joinComma (tags.map (fun t => t.name)), tags, false) :=
  ⟨rfl, rfl⟩

/-- C1: the tag-new callback returns "true" exactly when the argument is a
non-empty name with no fold-insensitive match in the collection, in which case
one new record is appended; it returns "false" otherwise, and a falsy (missing
or empty) name leaves the collection unmutated and triggers no save. -/
theorem tagNew_true_iff_created (tags : List Tag) (freshId : String) (now : Nat)
    (arg : Option String) :
    ((tagNew tags freshId now arg).1 = "true" ↔
      truthy arg = true ∧ getExisting tags (arg.getD "") = none) ∧
    ((tagNew tags freshId now arg).1 = "true" →
      (tagNew tags freshId now arg).2.1 =
        tags ++ [newTagObj tags freshId now (arg.getD "")]) ∧
    ((tagNew tags freshId now arg).1 = "false" →
      (tagNew tags freshId now arg).2.1 = tags) ∧
    (truthy arg = false → tagNew tags freshId now arg = ("false", tags, false)) ∧
    (∀ t, getExisting tags (arg.getD "") = some t →
      tagNew tags freshId now arg = ("false", tags, false)) := by
  cases h : truthy arg with
  | false => simp [tagNew, h]
  | true =>
    cases hg : getExisting tags (arg.getD "") with
    | some t => simp [tagNew, h, hg]
    | none => simp [tagNew, h, hg, createNewTag]

/-- C2: CreateIfAbsent is idempotent under the fold-insensitive matching rule:
when Lookup finds an existing record it is returned unchanged with no mutation
and no persistence trigger, and after two calls with fold-equal names the
second call mutates nothing, triggers no save, and returns the record Lookup
finds, so at most one (and, starting from a matchless collection, exactly one)
record has been added. -/
theorem createNewTag_idempotent (tags : List Tag) (i1 i2 : String) (d1 d2 : Nat)
    (n1 n2 : String) (h : equalsIgnoreCaseAndAccents n1 n2 = true) :
    (∀ t, getExisting tags n1 = some t → createNewTag tags i1 d1 n1 = (t, tags, false)) ∧
    (createNewTag ((createNewTag tags i1 d1 n1).2.1) i2 d2 n2).2.1 =
      (createNewTag tags i1 d1 n1).2.1 ∧
    (createNewTag ((createNewTag tags i1 d1 n1).2.1) i2 d2 n2).2.2 = false ∧
    getExisting ((createNewTag tags i1 d1 n1).2.1) n2 =
      some (createNewTag ((createNewTag tags i1 d1 n1).2.1) i2 d2 n2).1 ∧
    (getExisting tags n1 = none →
      ((createNewTag ((createNewTag tags i1 d1 n1).2.1) i2 d2 n2).2.1).length =
        tags.length + 1) := by
  cases hg : getExisting tags n1 with
  | some t =>
    have e1 : createNewTag tags i1 d1 n1 = (t, tags, false) := by
      simp [createNewTag, hg]
    have e2 : getExisting tags n2 = some t := by
      rw [← getExisting_congr tags n1 n2 h]; exact hg
    refine ⟨?_, ?_, ?_, ?_, ?_⟩
    · intro t' ht'
      cases ht'
      simp [createNewTag, hg]
    · rw [e1]; simp [createNewTag, e2]
    · rw [e1]; simp [createNewTag, e2]
    · rw [e1]; simp [createNewTag, e2]
    · intro hnone; cases hnone
  | none =>
    have e1 : createNewTag tags i1 d1 n1 =
        (newTagObj tags i1 d1 n1, tags ++ [newTagObj tags i1 d1 n1], true) := by
      simp [createNewTag, hg]
    have e2 : getExisting (tags ++ [newTagObj tags i1 d1 n1]) n2 =
        some (newTagObj tags i1 d1 n1) := by
      rw [← getExisting_congr _ n1 n2 h, getExisting_append_one, hg]
      have hname : (newTagObj tags i1 d1 n1).name = n1 := rfl
      rw [hname, equalsIgnoreCaseAndAccents_refl]
      rfl
    refine ⟨?_, ?_, ?_, ?_, ?_⟩
    · intro t' ht'; cases ht'
    · rw [e1]; simp [createNewTag, e2]
    · rw [e1]; simp [createNewTag, e2]
    · rw [e1]; simp [createNewTag, e2]
    · intro _
      rw [e1]
      simp [createNewTag, e2]

/-- Witness for C2 at the spec's own example: "Scenario" then "SCENARIO" from
the empty collection; the second call mutates nothing and saves nothing. -/
theorem createNewTag_idempotent_witness :
    (createNewTag ((createNewTag ([] : List Tag) "i1" 0 "Scenario").2.1) "i2" 1
        "SCENARIO").2.1 = ((createNewTag ([] : List Tag) "i1" 0 "Scenario").2.1) ∧
    (createNewTag ((createNewTag ([] : List Tag) "i1" 0 "Scenario").2.1) "i2" 1
        "SCENARIO").2.2 = false ∧
    ((createNewTag ((createNewTag ([] : List Tag) "i1" 0 "Scenario").2.1) "i2" 1
        "SCENARIO").2.1).length = 1 :=
  ⟨(createNewTag_idempotent [] "i1" "i2" 0 1 "Scenario" "SCENARIO" (by decide)).2.1,
   (createNewTag_idempotent [] "i1" "i2" 0 1 "Scenario" "SCENARIO" (by decide)).2.2.1,
   (createNewTag_idempotent [] "i1" "i2" 0 1 "Scenario" "SCENARIO" (by decide)).2.2.2.2
     (by decide)⟩

/-- Witness for C1: creating "Alpha" in the empty collection reports "true"
and appends the one new record; on a collection already holding "ALPHA", the
fold-matching request "alpha" reports "false" with no mutation and no save. -/
theorem tagNew_true_iff_created_witness :
    ((tagNew ([] : List Tag) "id1" 0 (some "Alpha")).1 = "true" ↔
      truthy (some "Alpha") = true ∧
        getExisting ([] : List Tag) ((some "Alpha").getD "") = none) ∧
    (tagNew ([] : List Tag) "id1" 0 (some "Alpha")).2.1 =
      [] ++ [newTagObj ([] : List Tag) "id1" 0 ((some "Alpha").getD "")] ∧
    tagNew [tagALPHA] "id2" 0 (some "alpha") = ("false", [tagALPHA], false) :=
  ⟨(tagNew_true_iff_created [] "id1" 0 (some "Alpha")).1,
   (tagNew_true_iff_created [] "id1" 0 (some "Alpha")).2.1 (by decide),
   (tagNew_true_iff_created [tagALPHA] "id2" 0 (some "alpha")).2.2.2.2 tagALPHA
     (by decide)⟩

/-- C3: listing with no filter returns all names joined in insertion order;
with a non-empty filter it returns exactly the names containing the filter as
a case-insensitive substring, sorted ascending; on the collection
["OC", "Scenario", "Documentary"] the filter "oc" yields
["Documentary", "OC"]. -/
theorem tagListAll_filter_sort (tags : List Tag) (s : String) (h : s ≠ "") :
    tagListAll tags none = (joinComma (tags.map (fun t => t.name)), tags, false) ∧
    (∃ l, tagListAll tags (some s) = (joinComma l, tags, false) ∧
      l.Perm ((tags.filter (fun t => jsIncludes (jsToLower t.name)
        (jsToLower s))).map (fun t => t.name)) ∧
      List.Pairwise (fun a b => jsStrLe a b = true) l) ∧
    jsSort ((demoOSD.filter (fun t => jsIncludes (jsToLower t.name)
      (jsToLower "oc"))).map (fun t => t.name)) = ["Documentary", "OC"] ∧
    (tagListAll demoOSD (some "oc")).1 = "Documentary, OC" := by
  have htr : truthy (some s) = true := by simp [truthy, h]
  refine ⟨rfl, ⟨jsSort ((tags.filter (fun t => jsIncludes (jsToLower t.name)
      (jsToLower s))).map (fun t => t.name)), ?_, jsSort_perm _, pairwise_jsSort _⟩,
    by decide, by decide⟩
  simp [tagListAll, htr]

/-- Witness for C3 at the spec's own example collection with filter "oc". -/
theorem tagListAll_filter_sort_witness :
    ("oc" : String) ≠ "" ∧
    (∃ l, tagListAll demoOSD (some "oc") = (joinComma l, demoOSD, false) ∧
      l.Perm ((demoOSD.filter (fun t => jsIncludes (jsToLower t.name)
        (jsToLower "oc"))).map (fun t => t.name)) ∧
      List.Pairwise (fun a b => jsStrLe a b = true) l) :=
  ⟨by decide, (tagListAll_filter_sort demoOSD "oc" (by decide)).2.1⟩

/-- C4: a freshly constructed tag gets sort_order equal to one more than the
maximum of the existing sort orders and zero; in the empty collection that is
1, and the sort orders of successively created tags grow by at least 1. -/
theorem newTagObj_sort_order_spec (tags : List Tag) (i1 i2 : String) (d1 d2 : Nat)
    (n1 n2 : String) (h1 : getExisting tags n1 = none)
    (h2 : getExisting ((createNewTag tags i1 d1 n1).2.1) n2 = none) :
    (∀ (ts : List Tag) (i : String) (d : Nat) (n : String),
      (newTagObj ts i d n).sort_order =
        1 + (ts.map (fun t => t.sort_order)).foldl max 0) ∧
    (∀ (i : String) (d : Nat) (n : String), (newTagObj [] i d n).sort_order = 1) ∧
    ((createNewTag ((createNewTag tags i1 d1 n1).2.1) i2 d2 n2).1).sort_order ≥
      ((createNewTag tags i1 d1 n1).1).sort_order + 1 := by
  refine ⟨fun ts i d n => Nat.add_comm _ _, fun i d n => rfl, ?_⟩
  have e1 : createNewTag tags i1 d1 n1 =
      (newTagObj tags i1 d1 n1, tags ++ [newTagObj tags i1 d1 n1], true) := by
    simp [createNewTag, h1]
  rw [e1] at h2 ⊢
  have e2 : createNewTag (tags ++ [newTagObj tags i1 d1 n1]) i2 d2 n2 =
      (newTagObj (tags ++ [newTagObj tags i1 d1 n1]) i2 d2 n2,
        (tags ++ [newTagObj tags i1 d1 n1]) ++
          [newTagObj (tags ++ [newTagObj tags i1 d1 n1]) i2 d2 n2], true) := by
    simp only [] at h2
    simp [createNewTag, h2]
  simp only [] at e2 ⊢
  rw [e2]
  show ((tags ++ [newTagObj tags i1 d1 n1]).map (fun t => t.sort_order)).foldl max 0
      + 1 ≥ (newTagObj tags i1 d1 n1).sort_order + 1
  have hmem : (newTagObj tags i1 d1 n1).sort_order ∈
      (tags ++ [newTagObj tags i1 d1 n1]).map (fun t => t.sort_order) :=
    List.mem_map.mpr ⟨newTagObj tags i1 d1 n1,
      List.mem_append_right _ (List.mem_singleton.mpr rfl), rfl⟩
  have hle := le_foldl_max_of_mem hmem 0
  omega

/-- Witness for C4: creating "Alpha" then "Beta" from the empty collection;
the first gets sort_order 1 and the second is at least one larger. -/
theorem newTagObj_sort_order_witness :
    (newTagObj ([] : List Tag) "i" 0 "A").sort_order = 1 ∧
    ((createNewTag ((createNewTag ([] : List Tag) "i1" 0 "Alpha").2.1) "i2" 1
        "Beta").1).sort_order ≥
      ((createNewTag ([] : List Tag) "i1" 0 "Alpha").1).sort_order + 1 :=
  ⟨(newTagObj_sort_order_spec [] "i1" "i2" 0 1 "Alpha" "Beta" (by decide)
      (by decide)).2.1 "i" 0 "A",
   (newTagObj_sort_order_spec [] "i1" "i2" 0 1 "Alpha" "Beta" (by decide)
      (by decide)).2.2⟩

/-- C5 counterexample: with the collection already holding a tag named
"ALPHA", CreateIfAbsent("alpha") is a no-op, so the subsequent Lookup("alpha")
returns the record named "ALPHA", not one whose name equals "alpha" — the
claim fails when a fold-equal record pre-exists. -/
theorem lookup_after_create_not_exact :
    ("alpha" : String) ≠ "" ∧
    (getExisting ((createNewTag [tagALPHA] "id2" 5 "alpha").2.1) "alpha").map
      (fun t => t.name) = some "ALPHA" ∧
    ¬ (getExisting ((createNewTag [tagALPHA] "id2" 5 "alpha").2.1) "alpha").map
      (fun t => t.name) = some "alpha" := by decide

/-- C5 amended: when no fold-equal record pre-exists (so CreateIfAbsent really
creates), Lookup(n) afterwards returns a record whose name equals n exactly,
casing and accents preserved. -/
theorem lookup_after_create_exact (tags : List Tag) (freshId : String) (now : Nat)
    (n : String) (h : getExisting tags n = none) :
    ∃ t, getExisting ((createNewTag tags freshId now n).2.1) n = some t ∧
      t.name = n := by
  refine ⟨newTagObj tags freshId now n, ?_, rfl⟩
  simp only [createNewTag, h]
  rw [getExisting_append_one, h]
  have hname : (newTagObj tags freshId now n).name = n := rfl
  rw [hname, equalsIgnoreCaseAndAccents_refl]
  rfl

/-- Witness for the amended C5: creating "Alpha" in the empty collection and
looking it up again returns the record named exactly "Alpha". -/
theorem lookup_after_create_exact_witness :
    ∃ t, getExisting ((createNewTag ([] : List Tag) "id1" 0 "Alpha").2.1) "Alpha" =
      some t ∧ t.name = "Alpha" :=
  lookup_after_create_exact [] "id1" 0 "Alpha" (by decide)

/-- C6: for a non-empty query, tag-exists-all answers "true" exactly when some
existing tag's name is fold-equal to the query (differs only in case or
diacritics, the accent-fold rule), and "false" exactly when none is. -/
theorem tagExistsAll_fold_insensitive (tags : List Tag) (n : String) (h : n ≠ "") :
    ((tagExistsAll tags (some n)).1 = "true" ↔
      ∃ t ∈ tags, equalsIgnoreCaseAndAccents t.name n = true) ∧
    ((tagExistsAll tags (some n)).1 = "false" ↔
      ∀ t ∈ tags, equalsIgnoreCaseAndAccents t.name n = false) := by
  have htr : truthy (some n) = true := by simp [truthy, h]
  have e : (tagExistsAll tags (some n)).1 =
      if (getExisting tags n).isSome then "true" else "false" := by
    simp [tagExistsAll, htr]
  rw [e]
  cases hs : (getExisting tags n).isSome with
  | true =>
    rcases List.find?_isSome.mp hs with ⟨x, hx, hp⟩
    constructor
    · simp only [if_pos rfl]
      constructor
      · intro _; exact ⟨x, hx, hp⟩
      · intro _; rfl
    · simp only [if_pos rfl]
      constructor
      · intro hfalse; exact absurd hfalse (by decide)
      · intro hall
        rw [hall x hx] at hp
        cases hp
  | false =>
    have hnone : getExisting tags n = none := by
      cases hgo : getExisting tags n with
      | none => rfl
      | some t => rw [hgo] at hs; cases hs
    have hall : ∀ t ∈ tags, equalsIgnoreCaseAndAccents t.name n = false := by
      intro t ht
      have := List.find?_eq_none.mp hnone t ht
      simpa using this
    constructor
    · simp only [Bool.false_eq_true, if_neg, ite_false]
      constructor
      · intro hfalse; exact absurd hfalse (by decide)
      · intro ⟨x, hx, hp⟩
        rw [hall x hx] at hp
        cases hp
    · simp only [Bool.false_eq_true, if_neg, ite_false]
      constructor
      · intro _; exact hall
      · intro _; trivial

/-- Witness for C6: "CAFE" differs from the stored "Café" only in case and an
accent, and the command reports "true". -/
theorem tagExistsAll_fold_insensitive_witness :
    ("CAFE" : String) ≠ "" ∧
    ((tagExistsAll [tagCafe] (some "CAFE")).1 = "true" ↔
      ∃ t ∈ [tagCafe], equalsIgnoreCaseAndAccents t.name "CAFE" = true) :=
  ⟨by decide, (tagExistsAll_fold_insensitive [tagCafe] "CAFE" (by decide)).1⟩

/-- C7: every command callback only ever appends to the collection: the
existing records stay in place and in order, tag-exists-all and tag-list-all
leave the collection untouched, and a creating CreateIfAbsent appends exactly
the one new record at the end. -/
theorem operations_append_only (tags : List Tag) (freshId : String) (now : Nat)
    (arg search : Option String) (n : String) :
    ((tagNew tags freshId now arg).2.1 = tags ∨
      ∃ t, (tagNew tags freshId now arg).2.1 = tags ++ [t]) ∧
    ((createNewTag tags freshId now n).2.1 = tags ∨
      (createNewTag tags freshId now n).2.1 = tags ++ [newTagObj tags freshId now n]) ∧
    (tagExistsAll tags arg).2.1 = tags ∧
    (tagListAll tags search).2.1 = tags ∧
    (getExisting tags n = none →
      (createNewTag tags freshId now n).2.1 = tags ++ [newTagObj tags freshId now n]) := by
  refine ⟨?_, ?_, ?_, ?_, ?_⟩
  · cases h : truthy arg with
    | false => left; simp [tagNew, h]
    | true =>
      cases hg : getExisting tags (arg.getD "") with
      | some t => left; simp [tagNew, h, hg]
      | none =>
        right
        exact ⟨newTagObj tags freshId now (arg.getD ""),
          by simp [tagNew, h, hg, createNewTag]⟩
  · cases hg : getExisting tags n with
    | some t => left; simp [createNewTag, hg]
    | none => right; simp [createNewTag, hg]
  · cases h : truthy arg <;> simp [tagExistsAll, h]
  · cases h : truthy search <;> simp [tagListAll, h]
  · intro hg; simp [createNewTag, hg]

/-- Witness for C7: a creating call on the empty collection appends exactly
the one new record. -/
theorem operations_append_only_witness :
    (createNewTag ([] : List Tag) "i" 0 "A").2.1 =
      [] ++ [newTagObj ([] : List Tag) "i" 0 "A"] :=
  (operations_append_only [] "i" 0 none none "A").2.2.2.2 (by decide)

/-- C10: the filtered listing is ordered by plain UTF-16 code-unit comparison,
so no lowercase-initial name ever precedes an uppercase-initial one; on a
collection holding "apple" and "Banana", filtering with "a" yields
"Banana, apple", not case-insensitive alphabetical order. -/
theorem tagListAll_uppercase_first (tags : List Tag) (s : String) (h : s ≠ "") :
    (∃ l, (tagListAll tags (some s)).1 = joinComma l ∧
      List.Pairwise (fun a b =>
        ¬(startsWithLower a = true ∧ startsWithUpper b = true)) l) ∧
    (tagListAll demoAB (some "a")).1 = "Banana, apple" ∧
    jsSort ["apple", "Banana"] = ["Banana", "apple"] := by
  have htr : truthy (some s) = true := by simp [truthy, h]
  refine ⟨⟨jsSort ((tags.filter (fun t => jsIncludes (jsToLower t.name)
      (jsToLower s))).map (fun t => t.name)), ?_, ?_⟩, by decide, by decide⟩
  · simp [tagListAll, htr]
  · refine List.Pairwise.imp ?_ (pairwise_jsSort _)
    intro a b hle
    rintro ⟨hla, hub⟩
    rw [jsStrLe_lower_upper a b hla hub] at hle
    cases hle

/-- Witness for C10 on the "apple"/"Banana" fixture with filter "a". -/
theorem tagListAll_uppercase_first_witness :
    ∃ l, (tagListAll demoAB (some "a")).1 = joinComma l ∧
      List.Pairwise (fun a b =>
        ¬(startsWithLower a = true ∧ startsWithUpper b = true)) l :=
  (tagListAll_uppercase_first demoAB "a" (by decide)).1

end ListAllTags
